import Mathlib

/-!
# memstrack: the tracer's main program and its terminal interface

A shallow embedding of `src/memstrack.c` (start-up, the poll loop, shutdown on
a signal) and of `src/tui.c` (the process/module views, the expand key).

Calls that leave the two files (the perf backend, the report, libc) are
recorded as `Event`s in a trace; what they return is read from an `Env`.
-/

namespace Memstrack

/-! ## memstrack.c -/

/-- The value of `EPERM` in `errno.h`. -/
def EPERM : Int := 1

/-- The value of `SIGINT` in `signal.h`. -/
def SIGINT : Int := 2

/-- The value of `SIGTERM` in `signal.h`. -/
def SIGTERM : Int := 15

/-- The global `m_report`. -/
def m_report : String := "task_summary"

/-- Addresses; `0` is the null pointer. -/
abbrev Ptr := Nat

/-- The number of bytes of a `struct pollfd`. -/
def sizeof_pollfd : Nat := 8

/-- What `exit(status)` and `return status` from `main` leave as the exit code
of the process: the low eight bits of `status`. -/
def exit_code (status : Int) : Int := status % 256

/-- The calls of `main` that leave `memstrack.c`, with their arguments. -/
inductive Event where
  | tune_glibc
  | log_error (msg : String)
  | log_warn (msg : String)
  | setpriority (prio : Int)
  | mem_tracing_init
  | signal (signum : Int)
  | perf_handling_init
  | malloc (bytes : Nat)
  | perf_apply_fds (fds : Ptr)
  | perf_handling_start
  | poll (fds : Ptr) (nfds : Int) (timeout : Int)
  | perf_handling_process
  | do_report (report : String)
  | perf_handling_clean
deriving DecidableEq

/-- What the outside world answers during one run. -/
structure Env where
  /-- The result of `getuid()`. -/
  getuid : Nat
  /-- The result of `setpriority` in `set_high_priority`. -/
  setpriority : Int
  /-- The result of `mem_tracing_init()`. -/
  mem_tracing_init : Int
  /-- The result of `perf_handling_init()`. -/
  perf_handling_init : Int
  /-- The global `perf_event_ring_num` once `perf_handling_init` has returned. -/
  perf_event_ring_num : Int
  /-- The result of `malloc` in `init` (`0`: allocation failed). -/
  malloc : Ptr
  /-- Signals delivered after the handlers are installed and before the loop
  condition is first evaluated. (A signal that arrives before `signal` is
  called ends the process by its default action; such runs are not modelled.) -/
  startup_signals : List Int
  /-- The result of the `k`-th call of `poll`. -/
  poll : Nat → Int

/-- The globals of `memstrack.c` that `main` writes, and the trace so far. -/
structure State where
  m_loop : Int
  m_pollfds : Ptr
  m_pollfd_num : Int
  /-- The number of `poll` calls made. -/
  polls : Nat
  trace : List Event
deriving DecidableEq

/-- Append one event to the trace. -/
def State.emit (s : State) (e : Event) : State :=
  { s with trace := s.trace ++ [e] }

/-- The globals as initialised at load time: `m_loop = 1`, no descriptors. -/
def State.initial : State :=
  { m_loop := 1, m_pollfds := 0, m_pollfd_num := 0, polls := 0, trace := [] }

/-- The macro `log_error` of the absent `memstrack.h`: a call of `m_log`, which
prints because `m_debug` is 1. -/
def log_error (msg : String) (s : State) : State :=
  s.emit (.log_error msg)

/-- The macro `log_warn` of the absent `memstrack.h`. -/
def log_warn (msg : String) (s : State) : State :=
  s.emit (.log_warn msg)

/-- The handler `on_signal` of SIGINT and SIGTERM. -/
def on_signal (_signal : Int) (s : State) : State :=
  { s with m_loop := 0 }

/-- Deliver SIGINT/SIGTERM signals one after the other to the installed handler
(`signal` of glibc under `_GNU_SOURCE` leaves the handler installed). -/
def deliver (sigs : List Int) (s : State) : State :=
  sigs.foldl (fun st sg => on_signal sg st) s

/-- The function `set_high_priority`. -/
def set_high_priority (env : Env) (s : State) : State :=
  let s := s.emit (.setpriority (-20))
  if env.setpriority ≠ 0 then log_error "Failed to set high priority with %s.\n" s else s

/-- The function `init`; `Except.error (status, s)` is a call of `exit(status)`
in state `s`. -/
def init (env : Env) (s : State) : Except (Int × State) State :=
  let s := log_warn "Tracing memory allocations, Press ^C to interrupt ...\n" s
  let ui_fd_num : Int := 0
  let s := s.emit .perf_handling_init
  let ret := env.perf_handling_init
  if ret ≠ 0 then
    .error (ret, log_error "Failed initializing perf events\n" s)
  else
    let s := { s with m_pollfd_num := ui_fd_num + env.perf_event_ring_num }
    let s := s.emit (.malloc ((s.m_pollfd_num * sizeof_pollfd) % 2 ^ 64).toNat)
    let s := { s with m_pollfds := env.malloc }
    let s := if s.m_pollfds = 0 then log_error "Out of memory when try alloc fds\n" s else s
    .ok (s.emit (.perf_apply_fds (s.m_pollfds + ui_fd_num.toNat * sizeof_pollfd)))

/-- The `poll` call of `loop`. -/
def loop_poll (s : State) : State :=
  { s.emit (.poll s.m_pollfds s.m_pollfd_num 250) with polls := s.polls + 1 }

/-- The `switch` of `loop` on the result of `poll`: its only label is
`default`. -/
def loop_switch (_ret : Int) (s : State) : State :=
  s.emit .perf_handling_process

/-- The function `loop`, given the result of its `poll`. -/
def loop (ret : Int) (s : State) : State :=
  loop_switch ret (loop_poll s)

/-- The function `do_exit`. -/
def do_exit (s : State) : State :=
  (s.emit (.do_report m_report)).emit .perf_handling_clean

/-- The function `main` up to and including `perf_handling_start()`; the
assignment of `m_output` is not modelled. -/
def main_startup (env : Env) : Except (Int × State) State :=
  let s := State.initial.emit .tune_glibc
  if env.getuid ≠ 0 then
    .error (EPERM, log_error "This tool requires root permission to work.\n" s)
  else
    let s := set_high_priority env s
    let s := s.emit .mem_tracing_init
    if env.mem_tracing_init ≠ 0 then
      .error (1, s)
    else
      let s := s.emit (.signal SIGINT)
      let s := s.emit (.signal SIGTERM)
      let s := deliver env.startup_signals s
      match init env s with
      | .error e => .error e
      | .ok s => .ok (s.emit .perf_handling_start)

/-- Where `main` stands once its loop is reached. -/
inductive Pc where
  /-- At the condition of `while (m_loop)`. -/
  | check
  /-- In `loop`, at the call of `poll`. -/
  | poll
  /-- In `loop`, at the call of `perf_handling_process`. -/
  | process
  /-- In `do_exit`, at the call of `do_report`. -/
  | report
  /-- In `do_exit`, at the call of `perf_handling_clean`. -/
  | clean
  /-- After `return 0`. -/
  | done
deriving DecidableEq

/-- The process from the loop on. -/
structure Proc where
  pc : Pc
  s : State
  /-- The status `main` returned. -/
  status : Option Int
deriving DecidableEq

/-- One statement of `main` from the loop on. -/
def step (env : Env) (p : Proc) : Proc :=
  match p.pc with
  | .check => if p.s.m_loop ≠ 0 then { p with pc := .poll } else { p with pc := .report }
  | .poll => { p with pc := .process, s := loop_poll p.s }
  | .process => { p with pc := .check, s := loop_switch (env.poll (p.s.polls - 1)) p.s }
  | .report => { p with pc := .clean, s := p.s.emit (.do_report m_report) }
  | .clean => { p with pc := .done, s := p.s.emit .perf_handling_clean, status := some 0 }
  | .done => p

/-- Run `fuel` statements, or fewer when `main` returns first; before the
statement numbered `k` the signals `sig k` are delivered. -/
def run (env : Env) (sig : Nat → List Int) : Nat → Nat → Proc → Proc
  | 0, _, p => p
  | fuel + 1, k, p =>
    if p.pc = .done then p
    else run env sig fuel (k + 1) (step env { p with s := deliver (sig k) p.s })

/-- The function `main`: the exit code and the trace, or `none` when `fuel`
statements did not end the loop. -/
def main (env : Env) (sig : Nat → List Int) (fuel : Nat) : Option (Int × List Event) :=
  match main_startup env with
  | .error (status, s) => some (exit_code status, s.trace)
  | .ok s =>
    let p := run env sig fuel 0 { pc := .check, s := s, status := none }
    match p.status with
    | some status => some (exit_code status, p.s.trace)
    | none => none

/-- The calls still to come in the iteration in progress. -/
def pending (p : Proc) : List Event :=
  match p.pc with
  | .poll => [.poll p.s.m_pollfds p.s.m_pollfd_num 250, .perf_handling_process]
  | .process => [.perf_handling_process]
  | _ => []

/-- The two calls of `do_exit`. -/
def Event.is_exit_call : Event → Bool
  | .do_report _ => true
  | .perf_handling_clean => true
  | _ => false

/-- The calls of `do_exit` in a trace, in order. -/
def exit_calls (tr : List Event) : List Event :=
  tr.filter Event.is_exit_call

/-- What the trace holds of `do_exit` at each place of `main`. -/
def Proc.inv (p : Proc) : Prop :=
  match p.pc with
  | .clean => exit_calls p.s.trace = [.do_report m_report] ∧ p.status = none
  | .done => exit_calls p.s.trace = [.do_report m_report, .perf_handling_clean] ∧
      p.status = some 0 ∧ p.s.trace.getLast? = some .perf_handling_clean
  | _ => exit_calls p.s.trace = [] ∧ p.status = none

/-- A privileged run in which every start-up call succeeds except `malloc`. -/
def env_malloc_fails : Env :=
  { getuid := 0, setpriority := 0, mem_tracing_init := 0, perf_handling_init := 0,
    perf_event_ring_num := 4, malloc := 0, startup_signals := [], poll := fun _ => 1 }

/-- A privileged run in which `perf_handling_init` fails with the value 256. -/
def env_perf_fails_256 : Env :=
  { getuid := 0, setpriority := 0, mem_tracing_init := 0, perf_handling_init := 256,
    perf_event_ring_num := 0, malloc := 4096, startup_signals := [], poll := fun _ => 1 }

/-- A privileged run in which every start-up call succeeds. -/
def env_ok : Env :=
  { getuid := 0, setpriority := 0, mem_tracing_init := 0, perf_handling_init := 0,
    perf_event_ring_num := 4, malloc := 4096, startup_signals := [], poll := fun _ => 1 }

/-- A run started by a user other than root. -/
def env_user : Env :=
  { env_ok with getuid := 1000 }

/-- No signal is ever delivered. -/
def no_signal : Nat → List Int := fun _ => []

/-- One SIGINT before the statement numbered 4, a SIGTERM and a SIGINT before
the next one. -/
def sig_at_4 : Nat → List Int := fun k =>
  if k = 4 then [SIGINT] else if k = 5 then [SIGTERM, SIGINT] else []

/-- The state in which `env_ok` reaches the loop. -/
def state_ok : State :=
  { m_loop := 1, m_pollfds := 4096, m_pollfd_num := 4, polls := 0,
    trace := [.tune_glibc, .setpriority (-20), .mem_tracing_init, .signal SIGINT,
      .signal SIGTERM, .log_warn "Tracing memory allocations, Press ^C to interrupt ...\n",
      .perf_handling_init, .malloc 32, .perf_apply_fds 4096, .perf_handling_start] }

/-! ## tui.c -/

/-- The macro `MISC_PAD`. -/
def MISC_PAD : Int := 3

/-- The enumerator `UI_TYPE_TASK`, the process view. -/
def UI_TYPE_TASK : Nat := 0

/-- The enumerator `UI_TYPE_MODULE`, the module view. -/
def UI_TYPE_MODULE : Nat := 1

/-- The enumerator `UI_TYPE_MAX`. -/
def UI_TYPE_MAX : Nat := 2

/-- The view data `struct TracenodeViewData` that a `blob` points to. -/
structure TracenodeViewData where
  expended : Bool
deriving DecidableEq

/-- Modelled from the spec: `struct Record` of the absent `tracing.h`, the
counters of a tracenode. `addr` is the address of the record; its `blob`
pointer is kept in `Blobs`. -/
structure Record where
  addr : Nat
  pages_alloc : Int
deriving DecidableEq

/-- Modelled from the spec: `struct Tracenode` of the absent `tracing.h`: the
key among its siblings, the optional record, the children it owns (`[]` for a
null `children`). -/
inductive Tracenode where
  | mk (key : String) (record : Option Record) (children : List Tracenode)

/-- The field `record`. -/
def Tracenode.record : Tracenode → Option Record
  | .mk _ r _ => r

/-- The key of the node among its siblings. -/
def Tracenode.key : Tracenode → String
  | .mk k _ _ => k

/-- The field `children`. -/
def Tracenode.children : Tracenode → List Tracenode
  | .mk _ _ cs => cs

/-- The pages charged to the node: `record->pages_alloc`, 0 without a record. -/
def Tracenode.pages_alloc (n : Tracenode) : Int :=
  match n.record with
  | some r => r.pages_alloc
  | none => 0

mutual
/-- The number of levels of the tree under a node, the node included. -/
def Tracenode.depth : Tracenode → Nat
  | .mk _ _ cs => depth_list cs + 1
/-- The largest depth in a list of nodes. -/
def depth_list : List Tracenode → Nat
  | [] => 0
  | c :: cs => max c.depth (depth_list cs)
end

/-- Modelled from the spec: `struct Task` of the absent `tracing.h`. -/
structure Task where
  pid : Int
  task_name : String
  tracenode : Tracenode

/-- Modelled from the spec: `struct Module` of the absent `tracing.h`. -/
structure Module where
  name : String
  tracenode : Tracenode

/-- An entry of `top_tracenodes`: the array is a `struct Task **` or a
`struct Module **` cast to `struct Tracenode **`. -/
inductive Root where
  | task (t : Task)
  | module (m : Module)

/-- The tracenode embedded in a root. -/
def Root.tracenode : Root → Tracenode
  | .task t => t.tracenode
  | .module m => m.tracenode

/-- The view a root belongs to. -/
def Root.ui_type : Root → Nat
  | .task _ => UI_TYPE_TASK
  | .module _ => UI_TYPE_MODULE

/-- Modelled from the spec: the Task/Module Index of the absent `tracing.c`
that the queries read, the tasks of the task map and the modules of
`module_map`. -/
structure Index where
  tasks : List Task
  modules : List Module

/-- Modelled from the spec: `module_map.size` of the absent `tracing.c`, the
number of modules in the index. -/
def Index.module_map_size (ix : Index) : Int :=
  ix.modules.length

/-- The order of `strcmp` on keys. -/
def key_le (a b : String) : Bool :=
  decide (a.toList.map Char.toNat ≤ b.toList.map Char.toNat)

/-- Modelled from the spec: the order of the children of a node in a query,
descending `pages_alloc`, ties by ascending key. -/
def tracenode_before (a b : Tracenode) : Bool :=
  decide (a.pages_alloc > b.pages_alloc) ||
    (decide (a.pages_alloc = b.pages_alloc) && key_le a.key b.key)

/-- Modelled from the spec: `collect_tracenodes_sorted` of the absent
`tracing.c`, the children of a node sorted, with `top_only` only those whose
`pages_alloc` is not zero. -/
def collect_tracenodes_sorted (children : List Tracenode) (top_only : Bool) : List Tracenode :=
  ((if top_only then children.filter (fun n => decide (n.pages_alloc ≠ 0)) else children)
    ).insertionSort (fun a b => tracenode_before a b = true)

/-- Modelled from the spec: `collect_tasks_sorted` of the absent `tracing.c`:
the tasks in descending `pages_alloc` order, with `top_only` only those whose
`pages_alloc` is not zero, and the count it stores through its second
argument, the number of tasks returned. -/
def collect_tasks_sorted (top_only : Bool) (tasks : List Task) : List Task × Int :=
  let ts := ((if top_only then tasks.filter (fun t => decide (t.tracenode.pages_alloc ≠ 0))
    else tasks)).insertionSort (fun a b => a.tracenode.pages_alloc ≥ b.tracenode.pages_alloc)
  (ts, ts.length)

/-- Modelled from the spec: `collect_modules_sorted` of the absent `tracing.c`,
analogous to `collect_tasks_sorted`; it has no count argument. -/
def collect_modules_sorted (top_only : Bool) (modules : List Module) : List Module :=
  ((if top_only then modules.filter (fun m => decide (m.tracenode.pages_alloc ≠ 0))
    else modules)).insertionSort (fun a b => a.tracenode.pages_alloc ≥ b.tracenode.pages_alloc)

/-- The `blob` pointers of the records, by record address: `none` is a null
`blob`. -/
abbrev Blobs := Nat → Option TracenodeViewData

/-- Store a view at the record at `addr`. -/
def Blobs.set (b : Blobs) (addr : Nat) (v : TracenodeViewData) : Blobs :=
  fun a => if a = addr then some v else b a

/-- The statement
`if (!record->blob) record->blob = calloc(1, sizeof(struct TracenodeViewData))`. -/
def Blobs.calloc_if_null (b : Blobs) (addr : Nat) : Blobs :=
  match b addr with
  | some _ => b
  | none => b.set addr { expended := false }

/-- Read `view->expended`. Every reader in `tui.c` first allocates a null
`blob` with `calloc`, so a null `blob` reads as not expanded. -/
def Blobs.expended (b : Blobs) (addr : Nat) : Bool :=
  match b addr with
  | some v => v.expended
  | none => false

/-- A `for` loop over an array that stores the result of each call in `ret`
and breaks when it is not 0; the value is the last `ret`. -/
def for_break {α σ : Type} (f : α → σ → Int × σ) : List α → σ → Int × σ
  | [], st => (0, st)
  | x :: xs, st =>
    let r := f x st
    if r.1 ≠ 0 then r else for_break f xs r.2

/-- What `try_extend_tracenode` works on: the blobs and `*curr_line`. -/
structure Ext where
  blobs : Blobs
  curr_line : Int

/-- The function `try_extend_tracenode`; `fuel` bounds the depth of the
recursion. The test of a null `curr_line` is left out: both callers pass the
address of a variable. -/
def try_extend_tracenode (line_highlight : Int) : Nat → Tracenode → Ext → Int × Ext
  | 0, _, st => (0, st)
  | fuel + 1, .mk _ record children, st =>
    match record with
    | none => (0, st)
    | some r =>
      let blobs := st.blobs.calloc_if_null r.addr
      let expended := blobs.expended r.addr
      let st1 : Ext := { blobs := blobs, curr_line := st.curr_line + 1 }
      if st.curr_line = line_highlight then
        (-1, { st1 with blobs := blobs.set r.addr { expended := !expended } })
      else if expended && !children.isEmpty then
        for_break (try_extend_tracenode line_highlight fuel)
          (collect_tracenodes_sorted children true) st1
      else
        (0, st1)

/-- A line printed in the trace window. -/
structure Row where
  /-- The value of `tui_info.current` at the print: the line is printed at row
  `current + 1` of the window. -/
  line : Int
  indent : Nat
  expand_sym : Char
  /-- The address of the record of the node printed. -/
  record : Nat
  pages_alloc : Int
  /-- Printed with `A_REVERSE`. -/
  reverse : Bool
deriving DecidableEq

/-- What `tui_print_tracenode` works on: the blobs, `tui_info.current` and the
lines printed to the window. -/
structure Disp where
  blobs : Blobs
  current : Int
  rows : List Row

/-- The function `tui_print_tracenode`; `fuel` bounds the depth of the
recursion. Of the text of a line only the expand symbol and the page count
are kept. -/
def tui_print_tracenode (line_highlight limit : Int) :
    Nat → Tracenode → Nat → Disp → Int × Disp
  | 0, _, _, st => (0, st)
  | fuel + 1, .mk _ record children, indent, st =>
    match record with
    | none => (0, st)
    | some r =>
      let blobs := st.blobs.calloc_if_null r.addr
      let expended := blobs.expended r.addr
      let expand_sym := if expended then '|' else '+'
      let row : Row :=
        { line := st.current, indent := indent, expand_sym := expand_sym,
          record := r.addr, pages_alloc := r.pages_alloc,
          reverse := decide (st.current = line_highlight) }
      let st1 : Disp := { blobs := blobs, current := st.current + 1, rows := st.rows ++ [row] }
      if st.current > limit then
        (-1, st1)
      else if expended && !children.isEmpty then
        for_break (fun n => tui_print_tracenode line_highlight limit fuel n (indent + 1))
          (collect_tracenodes_sorted children true) st1
      else
        (0, st1)

/-- Why the interface stops: `m_exit`, or a read that C leaves undefined. -/
inductive Stop where
  /-- A call of `exit(status)`. -/
  | exit (status : Int)
  /-- The entry `top_tracenodes[i]` is read past the end of the array the query
  returned. -/
  | out_of_bounds (i : Nat)
  /-- The pointer `record->blob` is read through the null `record` of
  `top_tracenodes[i]`. -/
  | null_record (i : Nat)
deriving DecidableEq

/-- The file-scope variables of `tui.c`, with the lines last printed to the
trace window. -/
structure Tui where
  ui_type : Nat
  /-- The array `top_tracenodes`, as long as the query made it. -/
  top_tracenodes : List Root
  tracenode_num : Int
  line_highlight : Int
  blobs : Blobs
  /-- The field `tui_info.limit`. -/
  limit : Int
  /-- The field `tui_info.enabled`. -/
  enabled : Bool
  /-- The variable `LINES` of ncurses. -/
  LINES : Int
  rows : List Row

/-- The queries of `update_top_tracenodes`: `top_tracenodes` and
`tracenode_num` are assigned. -/
def update_top_tracenodes_query (ix : Index) (t : Tui) : Tui :=
  if t.ui_type = UI_TYPE_TASK then
    let q := collect_tasks_sorted true ix.tasks
    { t with top_tracenodes := q.1.map Root.task, tracenode_num := q.2 }
  else
    { t with
      top_tracenodes := (collect_modules_sorted true ix.modules).map Root.module,
      tracenode_num := ix.module_map_size }

/-- The `for` loop of `update_top_tracenodes`, from index `i` on for `n`
iterations: a blob is allocated for each record that has none. -/
def update_top_tracenodes_blobs (top : List Root) : Nat → Nat → Blobs → Except Stop Blobs
  | 0, _, b => .ok b
  | n + 1, i, b =>
    match top[i]? with
    | none => .error (.out_of_bounds i)
    | some root =>
      match root.tracenode.record with
      | none => .error (.null_record i)
      | some r => update_top_tracenodes_blobs top n (i + 1) (b.calloc_if_null r.addr)

/-- The function `update_top_tracenodes`; the `free` of the old array is not
modelled. -/
def update_top_tracenodes (ix : Index) (t : Tui) : Except Stop Tui :=
  let t := update_top_tracenodes_query ix t
  match update_top_tracenodes_blobs t.top_tracenodes t.tracenode_num.toNat 0 t.blobs with
  | .error e => .error e
  | .ok b => .ok { t with blobs := b }

/-- A `for` loop over `top_tracenodes[i]`, from index `i` on for `n`
iterations, that stops when the body does not return 0. -/
def for_top {σ : Type} (top : List Root) (body : Tracenode → σ → Int × σ) :
    Nat → Nat → σ → Except Stop σ
  | 0, _, st => .ok st
  | n + 1, i, st =>
    match top[i]? with
    | none => .error (.out_of_bounds i)
    | some root =>
      let r := body root.tracenode st
      if r.1 ≠ 0 then .ok r.2 else for_top top body n (i + 1) r.2

/-- The function `expend_line`; its argument is not used. The fuel of each
traversal is the depth of the root. -/
def expend_line (_line : Int) (t : Tui) : Except Stop Tui :=
  match for_top t.top_tracenodes
      (fun node st => try_extend_tracenode t.line_highlight node.depth node st)
      t.tracenode_num.toNat 0 { blobs := t.blobs, curr_line := 0 } with
  | .error e => .error e
  | .ok st => .ok { t with blobs := st.blobs }

/-- The function `update_tracewin`: the window is erased and the lines are
printed. -/
def update_tracewin (t : Tui) : Except Stop Tui :=
  match for_top t.top_tracenodes
      (fun node st => tui_print_tracenode t.line_highlight t.limit node.depth node 0 st)
      t.tracenode_num.toNat 0 { blobs := t.blobs, current := 0, rows := [] } with
  | .error e => .error e
  | .ok st => .ok { t with blobs := st.blobs, rows := st.rows }

/-- The function `update_ui`; the three header lines are not modelled. -/
def update_ui (t : Tui) : Except Stop Tui :=
  if !t.enabled then .ok t else update_tracewin t

/-- The key code `KEY_UP` of ncurses. -/
def KEY_UP : Int := 259

/-- The key code `KEY_DOWN` of ncurses. -/
def KEY_DOWN : Int := 258

/-- The `switch (ch)` of `tui_loop`. -/
def tui_loop_switch (ch : Int) (t : Tui) : Except Stop Tui :=
  if ch = 'q'.toNat ∨ ch = 'Q'.toNat then
    .error (.exit 0)
  else if ch = 'm'.toNat ∨ ch = 'M'.toNat then
    let ui_type := t.ui_type + 1
    .ok { t with ui_type := if ui_type ≥ UI_TYPE_MAX then 0 else ui_type }
  else if ch = 'r'.toNat ∨ ch = 'R'.toNat then
    .ok t
  else if ch = ' '.toNat then
    expend_line (t.line_highlight + MISC_PAD) t
  else if ch = KEY_UP then
    let line_highlight := t.line_highlight - 1
    .ok { t with line_highlight := if line_highlight < 0 then 0 else line_highlight }
  else if ch = KEY_DOWN then
    let line_highlight := t.line_highlight + 1
    .ok { t with line_highlight :=
      if line_highlight > t.LINES - MISC_PAD then t.LINES - MISC_PAD else line_highlight }
  else
    .ok t

/-- The first branch of `tui_loop`, taken when standard input is readable and
`getch()` returns `ch`. -/
def tui_loop_key (ch : Int) (ix : Index) (t : Tui) : Except Stop Tui :=
  match tui_loop_switch ch t with
  | .error e => .error e
  | .ok t =>
    match update_top_tracenodes ix t with
    | .error e => .error e
    | .ok t => update_ui t

/-- The function `tui_loop`: `stdin_ready` and `timer_ready` are the `POLLIN`
bits of `ui_fds[0]` and `ui_fds[1]`, `ch` the result of `getch()` and
`read_ret` the result of `read` on the timer. -/
def tui_loop (ix : Index) (stdin_ready : Bool) (ch : Int) (timer_ready : Bool)
    (read_ret : Int) (t : Tui) : Except Stop Tui :=
  match (if stdin_ready then tui_loop_key ch ix t else .ok t) with
  | .error e => .error e
  | .ok t =>
    if timer_ready && decide (read_ret ≠ 0) then
      match update_top_tracenodes ix t with
      | .error e => .error e
      | .ok t => update_ui t
    else .ok t

/-- The lines of the display traversal of `tui_print_tracenode` without its
line limit, each given by the address of the record printed; `expended` reads
the flag of a record, `fuel` bounds the depth. -/
def display_lines (expended : Nat → Bool) : Nat → Tracenode → List Nat
  | 0, _ => []
  | fuel + 1, .mk _ record children =>
    match record with
    | none => []
    | some r =>
      r.addr ::
        (if expended r.addr && !children.isEmpty then
          (collect_tracenodes_sorted children true).flatMap (display_lines expended fuel)
        else [])

/-- The lines of the display traversal of the whole window without the line
limit. -/
def Tui.display (t : Tui) : List Nat :=
  t.top_tracenodes.flatMap (fun root =>
    display_lines t.blobs.expended root.tracenode.depth root.tracenode)

mutual
/-- The addresses of the records of a node and of all the nodes under it. -/
def Tracenode.records : Tracenode → List Nat
  | .mk _ r cs =>
    (match r with
      | some r => [r.addr]
      | none => []) ++ records_list cs
/-- The addresses of the records under a list of nodes. -/
def records_list : List Tracenode → List Nat
  | [] => []
  | c :: cs => c.records ++ records_list cs
end

/-- The addresses of the records of the whole forest under `top_tracenodes`. -/
def Tui.records (t : Tui) : List Nat :=
  t.top_tracenodes.flatMap (fun root => root.tracenode.records)

/-- The record on line `h`, if there is such a line. -/
def line_at (lines : List Nat) (h : Int) : Option Nat :=
  if 0 ≤ h then lines[h.toNat]? else none

/-- What a printed line shows of the traversal: its number, the record and
whether it is highlighted. -/
def Row.shown (r : Row) : Int × Nat × Bool :=
  (r.line, r.record, r.reverse)

/-- Lines numbered from `c` on, the one numbered `line_highlight` highlighted. -/
def number_lines (line_highlight : Int) : Int → List Nat → List (Int × Nat × Bool)
  | _, [] => []
  | c, a :: as => (c, a, decide (c = line_highlight)) :: number_lines line_highlight (c + 1) as

/-- What a traversal by `try_extend_tracenode` of nodes whose display lines are
`lines` does from `st`: it flips the record on line `h` and returns -1, or
there is no such line, no flag changes and it returns 0. -/
def ext_spec (h : Int) (lines : List Nat) (st : Ext) (r : Int × Ext) : Prop :=
  match line_at lines (h - st.curr_line) with
  | some a => r.1 = -1 ∧
      r.2.blobs.expended = Function.update st.blobs.expended a (!st.blobs.expended a)
  | none => r.1 = 0 ∧ r.2.curr_line = st.curr_line + lines.length ∧
      r.2.blobs.expended = st.blobs.expended

/-- What a traversal by `tui_print_tracenode` of nodes whose display lines are
`lines` does from `st` when the line limit is not reached: it prints these
lines, numbered from `tui_info.current` on, and returns 0. -/
def print_spec (line_highlight limit : Int) (lines : List Nat) (st : Disp)
    (r : Int × Disp) : Prop :=
  st.current + lines.length ≤ limit + 1 →
    r.1 = 0 ∧ r.2.current = st.current + lines.length ∧
      r.2.blobs.expended = st.blobs.expended ∧
      r.2.rows.map Row.shown =
        st.rows.map Row.shown ++ number_lines line_highlight st.current lines

/-- A task root with two charged children, one of them with a child of its
own, and a child without a record. -/
def tree_init : Tracenode :=
  .mk "init" (some ⟨1, 5⟩)
    [.mk "alloc_pages" (some ⟨2, 2⟩) [.mk "do_fork" (some ⟨4, 2⟩) []],
     .mk "kmalloc" (some ⟨3, 3⟩) [],
     .mk "vmalloc" none []]

/-- The process view of one task, its root expanded, line 1 highlighted. -/
def tui_init : Tui :=
  { ui_type := UI_TYPE_TASK,
    top_tracenodes := [.task ⟨1, "init", tree_init⟩],
    tracenode_num := 1,
    line_highlight := 1,
    blobs := fun a => if a = 1 then some ⟨true⟩ else none,
    limit := 13, enabled := true, LINES := 20, rows := [] }

/-- An index of one task with pages and one module whose pages were all freed. -/
def index_freed_module : Index :=
  { tasks := [⟨1, "init", tree_init⟩],
    modules := [⟨"ext4", .mk "ext4" (some ⟨9, 0⟩) []⟩] }

/-! ## Theorems: memstrack.c -/

theorem deliver_of_stopped (sigs : List Int) (s : State) (h : s.m_loop = 0) :
    deliver sigs s = s := by
  induction sigs generalizing s with
  | nil => rfl
  | cons x xs ih =>
    have hx : on_signal x s = s := by
      cases s
      simp only [on_signal] at *
      simp [h]
    show deliver xs (on_signal x s) = s
    rw [hx]
    exact ih s h

theorem deliver_cons (x : Int) (xs : List Int) (s : State) :
    deliver (x :: xs) s = { s with m_loop := 0 } := by
  show deliver xs (on_signal x s) = _
  exact deliver_of_stopped xs _ rfl

theorem deliver_trace (sigs : List Int) (s : State) :
    (deliver sigs s).trace = s.trace := by
  cases sigs with
  | nil => rfl
  | cons x xs => rw [deliver_cons]

theorem step_m_loop (env : Env) (p : Proc) : (step env p).s.m_loop = p.s.m_loop := by
  unfold step
  split
  · split <;> rfl
  all_goals rfl

/-- The two statements of `main` after the loop are the body of `do_exit`
followed by `return 0`. -/
theorem step_do_exit (env : Env) (s : State) (st : Option Int) :
    step env (step env { pc := .report, s := s, status := st }) =
      { pc := .done, s := do_exit s, status := some 0 } := rfl

/-- The two statements of an iteration are the body of `loop`. -/
theorem step_loop (env : Env) (s : State) (st : Option Int) :
    step env (step env { pc := .poll, s := s, status := st }) =
      { pc := .check, s := loop (env.poll s.polls) s, status := st } := rfl

theorem run_succ (env : Env) (sig : Nat → List Int) (fuel k : Nat) (p : Proc)
    (h : p.pc ≠ .done) :
    run env sig (fuel + 1) k p =
      run env sig fuel (k + 1) (step env { p with s := deliver (sig k) p.s }) := by
  simp only [run, h, if_false]

theorem run_done (env : Env) (sig : Nat → List Int) (fuel k : Nat) (p : Proc)
    (h : p.pc = .done) : run env sig fuel k p = p := by
  cases fuel with
  | zero => rfl
  | succ n => simp [run, h]

theorem run_stopped (env : Env) (sig : Nat → List Int) (fuel k : Nat) (p : Proc)
    (h : p.s.m_loop = 0) (hpc : p.pc ≠ .done) :
    run env sig (fuel + 1) k p = run env sig fuel (k + 1) (step env p) := by
  simp only [run, hpc, if_false]
  rw [deliver_of_stopped _ _ h]

/-- From a state in the loop whose flag is 0, five statements at most end
`main`, whatever signals still arrive. -/
theorem run_of_stopped (env : Env) (sig : Nat → List Int) (fuel k : Nat) (p : Proc)
    (h : p.s.m_loop = 0) (hpc : p.pc = .check ∨ p.pc = .poll ∨ p.pc = .process)
    (hfuel : 5 ≤ fuel) :
    run env sig fuel k p =
      { pc := .done, status := some 0,
        s := { p.s with
          polls := if p.pc = .poll then p.s.polls + 1 else p.s.polls,
          trace := p.s.trace ++ pending p ++
            [.do_report m_report, .perf_handling_clean] } } := by
  obtain ⟨n, rfl⟩ : ∃ n, fuel = n + 5 := ⟨fuel - 5, by omega⟩
  obtain ⟨pc, s, st⟩ := p
  obtain ⟨ml, fds, num, polls, tr⟩ := s
  simp only at h hpc
  subst h
  rcases hpc with rfl | rfl | rfl
  · simp [run, step, deliver_of_stopped, State.emit, pending, run_done]
  · simp [run, step, deliver_of_stopped, State.emit, pending, run_done, loop_poll, loop_switch]
  · simp [run, step, deliver_of_stopped, State.emit, pending, run_done, loop_switch]

theorem run_reaches_done (env : Env) (sig : Nat → List Int) (fuel k : Nat) (p : Proc)
    (h : p.s.m_loop = 0) (hfuel : 5 ≤ fuel) : (run env sig fuel k p).pc = .done := by
  obtain ⟨n, rfl⟩ : ∃ n, fuel = n + 5 := ⟨fuel - 5, by omega⟩
  obtain ⟨pc, s, st⟩ := p
  obtain ⟨ml, fds, num, polls, tr⟩ := s
  simp only at h
  subst h
  cases pc <;>
    simp [run, step, deliver_of_stopped, State.emit, run_done, loop_poll, loop_switch]

theorem run_add (env : Env) (sig : Nat → List Int) (a b k : Nat) (p : Proc) :
    run env sig (a + b) k p = run env sig b (k + a) (run env sig a k p) := by
  induction a generalizing k p with
  | zero => simp [run]
  | succ n ih =>
    by_cases hd : p.pc = .done
    · rw [run_done _ _ _ _ _ hd, run_done _ _ _ _ _ hd, run_done _ _ _ _ _ hd]
    · have e : n + 1 + b = (n + b) + 1 := by omega
      rw [e]
      simp only [run, hd, if_false]
      rw [ih]
      congr 1
      omega

theorem exit_calls_append (tr : List Event) (e : Event) :
    exit_calls (tr ++ [e]) = exit_calls tr ++ (if e.is_exit_call then [e] else []) := by
  unfold exit_calls
  rw [List.filter_append]
  by_cases h : e.is_exit_call <;> simp [List.filter, h]

theorem step_inv (env : Env) (p : Proc) (h : p.inv) : (step env p).inv := by
  obtain ⟨pc, s, st⟩ := p
  cases pc <;> simp only [Proc.inv, step] at h ⊢
  · by_cases hm : s.m_loop = 0 <;> simpa [Proc.inv, hm] using h
  · simpa [Proc.inv, loop_poll, State.emit, exit_calls_append, Event.is_exit_call] using h
  · simpa [Proc.inv, loop_switch, State.emit, exit_calls_append, Event.is_exit_call] using h
  · simpa [Proc.inv, State.emit, exit_calls_append, Event.is_exit_call] using h
  · simp [Proc.inv, State.emit, exit_calls_append, Event.is_exit_call, h.1]
  · simpa [Proc.inv] using h

theorem run_inv (env : Env) (sig : Nat → List Int) (fuel k : Nat) (p : Proc) (h : p.inv) :
    (run env sig fuel k p).inv := by
  induction fuel generalizing k p with
  | zero => exact h
  | succ n ih =>
    simp only [run]
    split
    · exact h
    · apply ih
      apply step_inv
      obtain ⟨pc, s, st⟩ := p
      cases pc <;> simpa [Proc.inv, deliver_trace] using h

theorem run_fds (env : Env) (sig : Nat → List Int) (fuel k : Nat) (p : Proc) :
    (run env sig fuel k p).s.m_pollfds = p.s.m_pollfds ∧
      (run env sig fuel k p).s.m_pollfd_num = p.s.m_pollfd_num := by
  induction fuel generalizing k p with
  | zero => exact ⟨rfl, rfl⟩
  | succ n ih =>
    simp only [run]
    split
    · exact ⟨rfl, rfl⟩
    · rw [(ih _ _).1, (ih _ _).2]
      obtain ⟨pc, s, st⟩ := p
      have hd : (deliver (sig k) s).m_pollfds = s.m_pollfds ∧
          (deliver (sig k) s).m_pollfd_num = s.m_pollfd_num := by
        cases sig k with
        | nil => exact ⟨rfl, rfl⟩
        | cons x xs => rw [deliver_cons]; exact ⟨rfl, rfl⟩
      cases pc <;> simp only [step]
      · split <;> exact hd
      all_goals exact hd

theorem main_startup_ok (env : Env) (s0 : State) (h : main_startup env = .ok s0) :
    s0.m_pollfds = env.malloc ∧ s0.m_pollfd_num = env.perf_event_ring_num ∧
      exit_calls s0.trace = [] ∧
      s0.trace.filter (fun e => e matches .perf_apply_fds _) = [.perf_apply_fds env.malloc] := by
  by_cases hu : env.getuid = 0
  · by_cases ht : env.mem_tracing_init = 0
    · by_cases hi : env.perf_handling_init = 0
      · simp only [main_startup, init, hu, ht, hi, ne_eq, not_true_eq_false, if_false,
          Except.ok.injEq] at h
        subst h
        by_cases hm : env.malloc = 0 <;> by_cases hp : env.setpriority = 0 <;>
          simp [State.emit, State.initial, deliver_trace, exit_calls, hm, hp,
            Event.is_exit_call, List.filter, set_high_priority, log_error, log_warn]
      · simp [main_startup, init, hu, ht, hi] at h
    · simp [main_startup, hu, ht] at h
  · simp [main_startup, hu] at h

/-- After a statement before which a signal arrived, six more statements end
`main` with status 0, its trace holding the two calls of `do_exit` once each,
`perf_handling_clean` last. -/
theorem main_of_signal (env : Env) (sig : Nat → List Int) (s0 : State) (j fuel : Nat)
    (h0 : main_startup env = .ok s0) (hj : sig j ≠ []) (hfuel : j + 6 ≤ fuel) :
    ∃ tr, main env sig fuel = some (0, tr) ∧
      exit_calls tr = [.do_report m_report, .perf_handling_clean] ∧
      tr.getLast? = some .perf_handling_clean := by
  have hinv0 : Proc.inv { pc := .check, s := s0, status := none } := by
    simp [Proc.inv, (main_startup_ok env s0 h0).2.2.1]
  have hinv := run_inv env sig fuel 0 _ hinv0
  have hdone : (run env sig fuel 0 { pc := .check, s := s0, status := none }).pc = .done := by
    obtain ⟨m, rfl⟩ : ∃ m, fuel = j + (m + 6) := ⟨fuel - j - 6, by omega⟩
    rw [run_add]
    generalize run env sig j 0 { pc := .check, s := s0, status := none } = q
    by_cases hq : q.pc = .done
    · rw [run_done _ _ _ _ _ hq]; exact hq
    · have e : m + 6 = (m + 5) + 1 := by omega
      rw [e, run_succ _ _ _ _ _ hq]
      apply run_reaches_done
      · rw [step_m_loop]
        obtain ⟨x, xs, hx⟩ := List.exists_cons_of_ne_nil hj
        simp only [Nat.zero_add]
        rw [hx, deliver_cons]
      · omega
  have hmain : main env sig fuel =
      match (run env sig fuel 0 { pc := .check, s := s0, status := none }).status with
      | some status =>
        some (exit_code status, (run env sig fuel 0 { pc := .check, s := s0, status := none }).s.trace)
      | none => none := by
    unfold main
    rw [h0]
  rw [hmain]
  generalize run env sig fuel 0 { pc := .check, s := s0, status := none } = r at hinv hdone
  obtain ⟨pc, s, st⟩ := r
  simp only at hdone
  subst hdone
  simp only [Proc.inv] at hinv
  obtain ⟨h1, h2, h3⟩ := hinv
  subst h2
  exact ⟨s.trace, rfl, h1, h3⟩

/-- C1: in the loop, any number n >= 1 of SIGINT/SIGTERM deliveries only sets
`m_loop` to 0, as one delivery does; from there no new iteration starts: the
iteration in progress completes, then `do_report(m_report)` and
`perf_handling_clean` run once each, in that order, the release last, and
`main` returns 0, whatever signals still arrive. For `main` as a whole: once a
signal has been delivered in the loop, `main` ends with exit code 0 and its
trace holds the two calls of `do_exit` exactly once, the release last. -/
theorem C1_signal_ends_loop_reports_once (env : Env) (sig : Nat → List Int)
    (sigs : List Int) (hn : 1 ≤ sigs.length)
    (p : Proc) (hpc : p.pc = .check ∨ p.pc = .poll ∨ p.pc = .process)
    (fuel k : Nat) (hfuel : 5 ≤ fuel)
    (s0 : State) (j : Nat) (h0 : main_startup env = .ok s0) (hj : sig j = sigs) :
    deliver sigs p.s = { p.s with m_loop := 0 } ∧
    deliver sigs p.s = on_signal SIGINT p.s ∧
    run env sig fuel k { p with s := deliver sigs p.s } =
      { pc := .done, status := some 0,
        s := { p.s with
          m_loop := 0,
          polls := if p.pc = .poll then p.s.polls + 1 else p.s.polls,
          trace := p.s.trace ++ pending p ++
            [.do_report m_report, .perf_handling_clean] } } ∧
    ∃ tr, main env sig (j + 1 + fuel) = some (0, tr) ∧
      exit_calls tr = [.do_report m_report, .perf_handling_clean] ∧
      tr.getLast? = some .perf_handling_clean := by
  obtain ⟨x, xs, rfl⟩ : ∃ x xs, sigs = x :: xs := by
    cases sigs with
    | nil => simp at hn
    | cons x xs => exact ⟨x, xs, rfl⟩
  refine ⟨deliver_cons x xs p.s, deliver_cons x xs p.s, ?_, ?_⟩
  · rw [deliver_cons]
    have h := run_of_stopped env sig fuel k { p with s := { p.s with m_loop := 0 } } rfl hpc hfuel
    rw [h]
    rfl
  · exact main_of_signal env sig s0 j (j + 1 + fuel) h0 (by rw [hj]; simp) (by omega)

/-- C1 at a concrete run: a SIGINT arrives during the second iteration. -/
theorem C1_signal_ends_loop_reports_once_witness :
    1 ≤ [SIGINT].length ∧
    ((⟨.poll, state_ok, none⟩ : Proc).pc = .check ∨ (⟨.poll, state_ok, none⟩ : Proc).pc = .poll ∨
      (⟨.poll, state_ok, none⟩ : Proc).pc = .process) ∧
    5 ≤ 5 ∧ main_startup env_ok = .ok state_ok ∧ sig_at_4 4 = [SIGINT] ∧
    (deliver [SIGINT] state_ok = { state_ok with m_loop := 0 } ∧
    deliver [SIGINT] state_ok = on_signal SIGINT state_ok ∧
    run env_ok sig_at_4 5 1 ⟨.poll, deliver [SIGINT] state_ok, none⟩ =
      { pc := .done, status := some 0,
        s := { state_ok with
          m_loop := 0,
          polls := 1,
          trace := state_ok.trace ++ [.poll 4096 4 250, .perf_handling_process] ++
            [.do_report m_report, .perf_handling_clean] } } ∧
    ∃ tr, main env_ok sig_at_4 10 = some (0, tr) ∧
      exit_calls tr = [.do_report m_report, .perf_handling_clean] ∧
      tr.getLast? = some .perf_handling_clean) :=
  ⟨by decide, Or.inr (Or.inl rfl), by decide, rfl, rfl,
    C1_signal_ends_loop_reports_once env_ok sig_at_4 [SIGINT] (by decide)
      ⟨.poll, state_ok, none⟩ (Or.inr (Or.inl rfl)) 5 1 (by decide) state_ok 4 rfl rfl⟩

/-- C2: when `getuid()` is not 0, `main` logs an error and exits with code
`EPERM`; its only calls are `tune_glibc` and the log: no `set_high_priority`,
`mem_tracing_init`, `signal`, `perf_handling_init`, `perf_handling_start` and
no loop. -/
theorem C2_unprivileged_exits_eperm (env : Env) (sig : Nat → List Int) (fuel : Nat)
    (h : env.getuid ≠ 0) :
    main_startup env = .error (EPERM,
      { State.initial with trace := [.tune_glibc,
        .log_error "This tool requires root permission to work.\n"] }) ∧
    main env sig fuel = some (EPERM,
      [.tune_glibc, .log_error "This tool requires root permission to work.\n"]) := by
  have hs : main_startup env = .error (EPERM,
      { State.initial with trace := [.tune_glibc,
        .log_error "This tool requires root permission to work.\n"] }) := by
    simp [main_startup, h, log_error, State.emit, State.initial]
  refine ⟨hs, ?_⟩
  unfold main
  rw [hs]
  rfl

/-- C2 for a run started with uid 1000. -/
theorem C2_unprivileged_exits_eperm_witness :
    env_user.getuid ≠ 0 ∧
    main env_user no_signal 0 = some (EPERM,
      [.tune_glibc, .log_error "This tool requires root permission to work.\n"]) :=
  ⟨by decide, (C2_unprivileged_exits_eperm env_user no_signal 0 (by decide)).2⟩

/-- When `perf_handling_init` returns `r` other than 0, `init` logs and calls
`exit(r)`: `perf_apply_fds`, `perf_handling_start` and the loop are not
reached, and the exit code is `r % 256`, which is not 0 unless 256 divides
`r`. -/
theorem perf_init_failure_exits (env : Env) (sig : Nat → List Int) (fuel : Nat)
    (hu : env.getuid = 0) (ht : env.mem_tracing_init = 0) (hr : env.perf_handling_init ≠ 0) :
    ∃ s, main_startup env = .error (env.perf_handling_init, s) ∧
      s.trace.getLast? = some (.log_error "Failed initializing perf events\n") ∧
      (∀ fds, Event.perf_apply_fds fds ∉ s.trace) ∧
      Event.perf_handling_start ∉ s.trace ∧
      (∀ fds nfds timeout, Event.poll fds nfds timeout ∉ s.trace) ∧
      main env sig fuel = some (env.perf_handling_init % 256, s.trace) ∧
      (env.perf_handling_init % 256 ≠ 0 ↔ ¬ (256 : Int) ∣ env.perf_handling_init) := by
  have hs : main_startup env = .error (env.perf_handling_init,
      log_error "Failed initializing perf events\n"
        ((log_warn "Tracing memory allocations, Press ^C to interrupt ...\n"
          (deliver env.startup_signals
            ((((set_high_priority env (State.initial.emit .tune_glibc)).emit
              .mem_tracing_init).emit (.signal SIGINT)).emit (.signal SIGTERM)))).emit
          .perf_handling_init)) := by
    simp [main_startup, init, hu, ht, hr]
  refine ⟨_, hs, ?_, ?_, ?_, ?_, ?_, ?_⟩
  · simp [log_error, State.emit]
  · intro fds
    by_cases hp : env.setpriority = 0 <;>
      simp [log_error, log_warn, State.emit, deliver_trace, set_high_priority, State.initial, hp]
  · by_cases hp : env.setpriority = 0 <;>
      simp [log_error, log_warn, State.emit, deliver_trace, set_high_priority, State.initial, hp]
  · intro fds nfds timeout
    by_cases hp : env.setpriority = 0 <;>
      simp [log_error, log_warn, State.emit, deliver_trace, set_high_priority, State.initial, hp]
  · unfold main
    rw [hs]
    rfl
  · rw [Int.dvd_iff_emod_eq_zero]

/-- When `mem_tracing_init` returns a value other than 0, `main` calls `exit(1)`
before `perf_handling_init` and before the signal handlers are installed. -/
theorem mem_tracing_failure_exits (env : Env) (sig : Nat → List Int) (fuel : Nat)
    (hu : env.getuid = 0) (ht : env.mem_tracing_init ≠ 0) :
    ∃ s, main_startup env = .error (1, s) ∧
      s.trace.getLast? = some .mem_tracing_init ∧
      Event.perf_handling_init ∉ s.trace ∧
      main env sig fuel = some (1, s.trace) := by
  have hs : main_startup env = .error (1,
      (set_high_priority env (State.initial.emit .tune_glibc)).emit .mem_tracing_init) := by
    simp [main_startup, hu, ht]
  refine ⟨_, hs, ?_, ?_, ?_⟩
  · simp [State.emit]
  · by_cases hp : env.setpriority = 0 <;>
      simp [log_error, State.emit, set_high_priority, State.initial, hp]
  · unfold main
    rw [hs]
    rfl

/-- C3, at the failing input: `perf_handling_init` returns 256, `init` logs and
calls `exit(256)`, and the exit code of the process is 0. -/
theorem C3_perf_init_256_exits_zero :
    main_startup env_perf_fails_256 = .error (256,
      { State.initial with trace := [.tune_glibc, .setpriority (-20), .mem_tracing_init,
        .signal SIGINT, .signal SIGTERM,
        .log_warn "Tracing memory allocations, Press ^C to interrupt ...\n",
        .perf_handling_init, .log_error "Failed initializing perf events\n"] }) ∧
    main env_perf_fails_256 no_signal 0 = some (0,
      [.tune_glibc, .setpriority (-20), .mem_tracing_init,
        .signal SIGINT, .signal SIGTERM,
        .log_warn "Tracing memory allocations, Press ^C to interrupt ...\n",
        .perf_handling_init, .log_error "Failed initializing perf events\n"]) :=
  ⟨rfl, rfl⟩

/-- C4: in every state the loop reaches, `loop` polls the array handed to
`perf_apply_fds`, with `m_pollfd_num = perf_event_ring_num` entries and a
timeout of 250, and then calls `perf_handling_process` once, whatever `poll`
returned; an iteration of the loop in `main` is one such call of `loop`. -/
theorem C4_loop_polls_then_drains (env : Env) (s0 : State)
    (h0 : main_startup env = .ok s0) (sig : Nat → List Int) (fuel k : Nat) (ret : Int)
    (p : Proc) (hp : p = run env sig fuel k { pc := .check, s := s0, status := none }) :
    s0.trace.filter (fun e => e matches .perf_apply_fds _) = [.perf_apply_fds env.malloc] ∧
    p.s.m_pollfds = env.malloc ∧ p.s.m_pollfd_num = env.perf_event_ring_num ∧
    loop ret p.s = { p.s with
      polls := p.s.polls + 1,
      trace := p.s.trace ++
        [.poll env.malloc env.perf_event_ring_num 250, .perf_handling_process] } ∧
    (p.pc = .poll → step env (step env p) =
      { p with pc := .check, s := loop (env.poll p.s.polls) p.s }) := by
  obtain ⟨h1, h2, _, h4⟩ := main_startup_ok env s0 h0
  have hf := run_fds env sig fuel k { pc := .check, s := s0, status := none }
  rw [← hp] at hf
  simp only at hf
  rw [h1, h2] at hf
  refine ⟨h4, hf.1, hf.2, ?_, ?_⟩
  · simp [loop, loop_switch, loop_poll, State.emit, hf.1, hf.2]
  · intro hpc
    obtain ⟨pc, s, st⟩ := p
    simp only at hpc
    subst hpc
    simp [step, loop, loop_poll, State.emit]

/-- C4 for the run `env_ok`, at the `poll` of its first iteration. -/
theorem C4_loop_polls_then_drains_witness :
    main_startup env_ok = .ok state_ok ∧
    (⟨.poll, state_ok, none⟩ : Proc) = run env_ok no_signal 1 0 ⟨.check, state_ok, none⟩ ∧
    loop (-1) state_ok = { state_ok with
      polls := 1,
      trace := state_ok.trace ++ [.poll 4096 4 250, .perf_handling_process] } :=
  ⟨rfl, rfl, (C4_loop_polls_then_drains env_ok state_ok rfl no_signal 1 0 (-1)
    ⟨.poll, state_ok, none⟩ rfl).2.2.2.1⟩

/-- C8, at the failing input: `malloc` returns NULL, `init` logs and goes on:
`perf_apply_fds` receives the null pointer, `main` reaches the loop, the loop
polls the null array, and the run ends with exit code 0 on a signal. -/
theorem C8_malloc_null_goes_on :
    main_startup env_malloc_fails = .ok
      { m_loop := 1, m_pollfds := 0, m_pollfd_num := 4, polls := 0,
        trace := [.tune_glibc, .setpriority (-20), .mem_tracing_init, .signal SIGINT,
          .signal SIGTERM, .log_warn "Tracing memory allocations, Press ^C to interrupt ...\n",
          .perf_handling_init, .malloc 32, .log_error "Out of memory when try alloc fds\n",
          .perf_apply_fds 0, .perf_handling_start] } ∧
    main env_malloc_fails sig_at_4 9 = some (0,
      [.tune_glibc, .setpriority (-20), .mem_tracing_init, .signal SIGINT,
        .signal SIGTERM, .log_warn "Tracing memory allocations, Press ^C to interrupt ...\n",
        .perf_handling_init, .malloc 32, .log_error "Out of memory when try alloc fds\n",
        .perf_apply_fds 0, .perf_handling_start,
        .poll 0 4 250, .perf_handling_process, .poll 0 4 250, .perf_handling_process,
        .do_report m_report, .perf_handling_clean]) :=
  ⟨rfl, rfl⟩

/-! ## Theorems: tui.c -/

theorem expended_calloc_if_null (b : Blobs) (a : Nat) :
    (b.calloc_if_null a).expended = b.expended := by
  funext x
  unfold Blobs.calloc_if_null Blobs.expended
  cases h : b a with
  | some v => rfl
  | none =>
    simp only [Blobs.set]
    by_cases hx : x = a
    · subst hx; simp [h]
    · simp [hx]

theorem expended_set (b : Blobs) (a : Nat) (v : TracenodeViewData) :
    (b.set a v).expended = Function.update b.expended a v.expended := by
  funext x
  unfold Blobs.set Blobs.expended
  by_cases hx : x = a
  · subst hx; simp
  · simp [hx]

/-- The record on line `h` of lines numbered from `c` on. -/
theorem line_at_sub_nil (h c : Int) : line_at [] (h - c) = none := by
  unfold line_at
  split <;> simp

theorem line_at_sub_cons (h c : Int) (a : Nat) (as : List Nat) :
    line_at (a :: as) (h - c) = if c = h then some a else line_at as (h - (c + 1)) := by
  unfold line_at
  by_cases hc : c = h
  · subst hc; simp
  · by_cases hle : 0 ≤ h - c
    · have h1 : 0 ≤ h - (c + 1) := by omega
      have h2 : (h - c).toNat = (h - (c + 1)).toNat + 1 := by omega
      simp [hc, hle, h1, h2]
    · have h1 : ¬ 0 ≤ h - (c + 1) := by omega
      simp [hc, hle, h1]

theorem line_at_sub_append (h c : Int) (as bs : List Nat) :
    line_at (as ++ bs) (h - c) =
      match line_at as (h - c) with
      | some a => some a
      | none => line_at bs (h - (c + as.length)) := by
  induction as generalizing c with
  | nil => simp [line_at_sub_nil]
  | cons a as ih =>
    rw [List.cons_append, line_at_sub_cons, line_at_sub_cons]
    by_cases hc : c = h
    · simp [hc]
    · simp only [hc, if_false]
      rw [ih]
      have e : h - (c + 1 + (as.length : Int)) = h - (c + ((a :: as).length : Int)) := by
        simp only [List.length_cons, Nat.cast_add, Nat.cast_one]
        ring_nf
      rw [e]

theorem for_break_ext {α : Type} (h : Int) (e : Nat → Bool) (lines : α → List Nat)
    (f : α → Ext → Int × Ext)
    (hf : ∀ x st, st.blobs.expended = e → ext_spec h (lines x) st (f x st)) :
    ∀ xs st, st.blobs.expended = e →
      ext_spec h (xs.flatMap lines) st (for_break f xs st) := by
  intro xs
  induction xs with
  | nil =>
    intro st _
    simp [ext_spec, for_break, line_at_sub_nil]
  | cons x xs ih =>
    intro st he
    have hx := hf x st he
    unfold ext_spec at hx ⊢
    rw [List.flatMap_cons, line_at_sub_append]
    cases hl : line_at (lines x) (h - st.curr_line) with
    | some a =>
      rw [hl] at hx
      have h1 : (f x st).1 ≠ 0 := by rw [hx.1]; decide
      simp only [for_break, h1, ne_eq, not_false_eq_true, if_true]
      exact hx
    | none =>
      rw [hl] at hx
      obtain ⟨h1, h2, h3⟩ := hx
      have ih2 := ih (f x st).2 (h3.trans he)
      unfold ext_spec at ih2
      rw [h2] at ih2
      simp only [for_break, h1, ne_eq, not_true_eq_false, if_false]
      cases hl2 : line_at (xs.flatMap lines) (h - (st.curr_line + (lines x).length)) with
      | some a =>
        rw [hl2] at ih2
        simp only
        rw [← h3]
        exact ih2
      | none =>
        rw [hl2] at ih2
        simp only
        refine ⟨ih2.1, ?_, ih2.2.2.trans h3⟩
        rw [ih2.2.1, List.length_append]
        push_cast
        ring

theorem try_extend_tracenode_spec (h : Int) (fuel : Nat) (node : Tracenode) (st : Ext) :
    ext_spec h (display_lines st.blobs.expended fuel node) st
      (try_extend_tracenode h fuel node st) := by
  induction fuel generalizing node st with
  | zero => simp [ext_spec, display_lines, try_extend_tracenode, line_at_sub_nil]
  | succ n ih =>
    obtain ⟨key, record, children⟩ := node
    cases record with
    | none => simp [ext_spec, display_lines, try_extend_tracenode, line_at_sub_nil]
    | some r =>
      simp only [display_lines, try_extend_tracenode, expended_calloc_if_null]
      unfold ext_spec
      rw [line_at_sub_cons]
      by_cases hc : st.curr_line = h
      · simp [hc, expended_set, expended_calloc_if_null]
      · simp only [hc, if_false]
        by_cases hx : (st.blobs.expended r.addr && !children.isEmpty) = true
        · simp only [hx, if_true]
          have hb := for_break_ext h st.blobs.expended (display_lines st.blobs.expended n)
            (try_extend_tracenode h n)
            (fun x s hs => by have := ih x s; rwa [hs] at this)
            (collect_tracenodes_sorted children true)
            { blobs := st.blobs.calloc_if_null r.addr, curr_line := st.curr_line + 1 }
            (expended_calloc_if_null _ _)
          unfold ext_spec at hb
          simp only [expended_calloc_if_null] at hb
          split at hb
          · exact hb
          · refine ⟨hb.1, ?_, hb.2.2⟩
            rw [hb.2.1, List.length_cons]
            push_cast
            ring
        · simp only [hx, if_false, Bool.false_eq_true]
          simp [line_at_sub_nil, expended_calloc_if_null]

theorem for_top_in_bounds {σ : Type} (top : List Root) (body : Tracenode → σ → Int × σ)
    (n i : Nat) (st : σ) (hlen : top.length = i + n) :
    for_top top body n i st =
      .ok (for_break (fun root => body root.tracenode) (top.drop i) st).2 := by
  induction n generalizing i st with
  | zero =>
    have hd : top.drop i = [] := List.drop_eq_nil_of_le (by omega)
    simp [for_top, hd, for_break]
  | succ n ih =>
    have hi : i < top.length := by omega
    have hd : top.drop i = top[i] :: top.drop (i + 1) := List.drop_eq_getElem_cons hi
    rw [hd]
    simp only [for_top, List.getElem?_eq_getElem hi, for_break]
    by_cases hr : (body top[i].tracenode st).1 = 0
    · simp only [hr, ne_eq, not_true_eq_false, if_false]
      exact ih (i + 1) _ (by omega)
    · simp only [hr, ne_eq, not_false_eq_true, if_true]

theorem number_lines_append (lh c : Int) (as bs : List Nat) :
    number_lines lh c (as ++ bs) =
      number_lines lh c as ++ number_lines lh (c + as.length) bs := by
  induction as generalizing c with
  | nil => simp [number_lines]
  | cons a as ih =>
    have e : c + ((a :: as).length : Int) = c + 1 + (as.length : Int) := by
      rw [List.length_cons]
      push_cast
      ring
    rw [e, List.cons_append]
    simp only [number_lines, ih, List.cons_append]

theorem for_break_print {α : Type} (lh limit : Int) (e : Nat → Bool) (lines : α → List Nat)
    (f : α → Disp → Int × Disp)
    (hf : ∀ x st, st.blobs.expended = e → print_spec lh limit (lines x) st (f x st)) :
    ∀ xs st, st.blobs.expended = e →
      print_spec lh limit (xs.flatMap lines) st (for_break f xs st) := by
  intro xs
  induction xs with
  | nil =>
    intro st _ _
    simp [for_break, number_lines]
  | cons x xs ih =>
    intro st he hle
    rw [List.flatMap_cons, List.length_append] at hle
    push_cast at hle
    obtain ⟨h1, h2, h3, h4⟩ := hf x st he (by omega)
    obtain ⟨k1, k2, k3, k4⟩ := ih (f x st).2 (h3.trans he) (by rw [h2]; omega)
    simp only [for_break, h1, ne_eq, not_true_eq_false, if_false]
    refine ⟨k1, ?_, k3.trans h3, ?_⟩
    · rw [k2, h2, List.flatMap_cons, List.length_append]
      push_cast
      ring
    · rw [k4, h4, h2, List.flatMap_cons, number_lines_append, List.append_assoc]

theorem tui_print_tracenode_spec (lh limit : Int) (fuel : Nat) (node : Tracenode)
    (indent : Nat) (st : Disp) :
    print_spec lh limit (display_lines st.blobs.expended fuel node) st
      (tui_print_tracenode lh limit fuel node indent st) := by
  induction fuel generalizing node indent st with
  | zero => simp [print_spec, display_lines, tui_print_tracenode, number_lines]
  | succ n ih =>
    obtain ⟨key, record, children⟩ := node
    cases record with
    | none => simp [print_spec, display_lines, tui_print_tracenode, number_lines]
    | some r =>
      intro hle
      simp only [display_lines, List.length_cons] at hle ⊢
      push_cast at hle
      have hc : ¬ st.current > limit := by omega
      simp only [tui_print_tracenode, expended_calloc_if_null, hc, if_false]
      by_cases hx : (st.blobs.expended r.addr && !children.isEmpty) = true
      · simp only [hx, if_true] at hle ⊢
        have hb := for_break_print lh limit st.blobs.expended
          (display_lines st.blobs.expended n)
          (fun x => tui_print_tracenode lh limit n x (indent + 1))
          (fun x s hs => by have := ih x (indent + 1) s; rwa [hs] at this)
          (collect_tracenodes_sorted children true)
          { blobs := st.blobs.calloc_if_null r.addr, current := st.current + 1,
            rows := st.rows ++
              [{ line := st.current, indent := indent,
                 expand_sym := if st.blobs.expended r.addr then '|' else '+',
                 record := r.addr, pages_alloc := r.pages_alloc,
                 reverse := decide (st.current = lh) }] }
          (expended_calloc_if_null _ _) (by simp only; omega)
        obtain ⟨k1, k2, k3, k4⟩ := hb
        refine ⟨k1, ?_, k3.trans (expended_calloc_if_null _ _), ?_⟩
        · rw [k2]; push_cast; ring
        · rw [k4]
          simp [number_lines, Row.shown]
      · simp only [hx, if_false, Bool.false_eq_true]
        simp [number_lines, Row.shown, expended_calloc_if_null]

theorem flatMap_take_stable {α : Type} (e e' : Nat → Bool) (f g : α → List Nat)
    (hfg : ∀ x k, (∀ a ∈ (f x).take k, e a = e' a) →
      (g x).take (k + 1) = (f x).take (k + 1)) :
    ∀ (xs : List α) (k : Nat), (∀ a ∈ (xs.flatMap f).take k, e a = e' a) →
      (xs.flatMap g).take (k + 1) = (xs.flatMap f).take (k + 1) := by
  intro xs
  induction xs with
  | nil => intro k _; rfl
  | cons x xs ih =>
    intro k hk
    rw [List.flatMap_cons, List.take_append_eq_append_take] at hk
    have hx := hfg x k (fun a ha => hk a (List.mem_append_left _ ha))
    have hlen := congrArg List.length hx
    rw [List.length_take, List.length_take] at hlen
    rw [List.flatMap_cons, List.flatMap_cons, List.take_append_eq_append_take,
      List.take_append_eq_append_take, hx]
    congr 1
    by_cases hlt : k + 1 ≤ (f x).length
    · have hg : k + 1 ≤ (g x).length := by omega
      rw [Nat.sub_eq_zero_of_le hlt, Nat.sub_eq_zero_of_le hg]
      rfl
    · have hg : (g x).length = (f x).length := by omega
      have e1 : k + 1 - (f x).length = (k - (f x).length) + 1 := by omega
      rw [hg, e1]
      exact ih (k - (f x).length) (fun a ha => hk a (List.mem_append_right _ ha))

theorem display_lines_take_stable (e e' : Nat → Bool) (fuel : Nat) (node : Tracenode)
    (k : Nat) (hk : ∀ a ∈ (display_lines e fuel node).take k, e a = e' a) :
    (display_lines e' fuel node).take (k + 1) = (display_lines e fuel node).take (k + 1) := by
  induction fuel generalizing node k with
  | zero => rfl
  | succ n ih =>
    obtain ⟨key, record, children⟩ := node
    cases record with
    | none => rfl
    | some r =>
      simp only [display_lines] at hk ⊢
      cases k with
      | zero => simp
      | succ k =>
        rw [List.take_succ_cons] at hk
        have hr : e r.addr = e' r.addr := hk _ (List.mem_cons_self _ _)
        rw [List.take_succ_cons, List.take_succ_cons, ← hr]
        congr 1
        by_cases hx : (e r.addr && !children.isEmpty) = true
        · simp only [hx, if_true] at hk ⊢
          exact flatMap_take_stable e e' _ _ (fun x j hj => ih x j hj) _ k
            (fun a ha => hk a (List.mem_cons_of_mem _ ha))
        · simp only [hx, if_false, Bool.false_eq_true]

/-- The display lines of the window read the blobs through their flags only. -/
theorem display_congr (t t' : Tui) (htop : t'.top_tracenodes = t.top_tracenodes)
    (he : t'.blobs.expended = t.blobs.expended) : t'.display = t.display := by
  unfold Tui.display
  rw [htop, he]

/-- Flipping the record on line `h` leaves that record on line `h`, when no
earlier line shows the same record. -/
theorem display_line_stable (t t' : Tui) (htop : t'.top_tracenodes = t.top_tracenodes)
    (h : Int) (a : Nat) (hat : line_at t.display h = some a) (hnodup : t.display.Nodup)
    (he : t'.blobs.expended = Function.update t.blobs.expended a (!t.blobs.expended a)) :
    line_at t'.display h = some a := by
  unfold line_at at hat ⊢
  by_cases h0 : 0 ≤ h
  · simp only [h0, if_true] at hat ⊢
    have hstable : t'.display.take (h.toNat + 1) = t.display.take (h.toNat + 1) := by
      unfold Tui.display
      rw [htop]
      apply flatMap_take_stable t.blobs.expended t'.blobs.expended
      · intro root k hk
        exact display_lines_take_stable _ _ _ _ k hk
      · intro b hb
        have hne : b ≠ a := by
          intro hba
          subst hba
          obtain ⟨i, hi, hib⟩ := List.getElem_of_mem hb
          rw [List.length_take] at hi
          have hlt : h.toNat < t.display.length := by
            by_contra hge
            rw [List.getElem?_eq_none (by omega)] at hat
            cases hat
          rw [List.getElem_take] at hib
          have h2 : t.display[h.toNat] = b := by
            rw [List.getElem?_eq_getElem hlt] at hat
            exact Option.some.inj hat
          have hi2 : i < t.display.length := by omega
          have := (List.Nodup.getElem_inj_iff hnodup (i := i) (j := h.toNat)).1
            (hib.trans h2.symm)
          omega
        rw [he, Function.update_noteq hne]
    have h1 : t'.display[h.toNat]? = (t'.display.take (h.toNat + 1))[h.toNat]? := by
      rw [List.getElem?_take_of_lt (by omega)]
    rw [h1, hstable, List.getElem?_take_of_lt (by omega)]
    exact hat
  · simp [h0] at hat

/-- With `tracenode_num` the length of `top_tracenodes`, `expend_line` returns
and changes the blobs only: the flag of the record on line `line_highlight` of
the display is flipped, or no flag changes when there is no such line. -/
theorem expend_line_spec (t : Tui) (line : Int)
    (hnum : t.tracenode_num = t.top_tracenodes.length) :
    ∃ b, expend_line line t = .ok { t with blobs := b } ∧
      match line_at t.display t.line_highlight with
      | some a => b.expended = Function.update t.blobs.expended a (!t.blobs.expended a)
      | none => b.expended = t.blobs.expended := by
  have hn : t.top_tracenodes.length = 0 + t.tracenode_num.toNat := by
    rw [hnum]; simp
  refine ⟨(for_break (fun (root : Root) st => try_extend_tracenode t.line_highlight
      root.tracenode.depth root.tracenode st) t.top_tracenodes
      { blobs := t.blobs, curr_line := 0 }).2.blobs, ?_, ?_⟩
  · unfold expend_line
    rw [for_top_in_bounds _ _ _ _ _ hn]
    rfl
  · have hs := for_break_ext t.line_highlight t.blobs.expended
      (fun root : Root => display_lines t.blobs.expended root.tracenode.depth root.tracenode)
      (fun root st => try_extend_tracenode t.line_highlight root.tracenode.depth
        root.tracenode st)
      (fun x st hs => by
        have := try_extend_tracenode_spec t.line_highlight x.tracenode.depth x.tracenode st
        rwa [hs] at this)
      t.top_tracenodes { blobs := t.blobs, curr_line := 0 } rfl
    unfold ext_spec at hs
    simp only [sub_zero, List.drop_zero] at hs ⊢
    unfold Tui.display
    split at hs
    · exact hs.2
    · exact hs.2.2

/-- With `tracenode_num` the length of `top_tracenodes` and the line limit not
reached, `update_tracewin` prints the display lines, numbered from 0, and
changes no flag. -/
theorem update_tracewin_spec (t : Tui)
    (hnum : t.tracenode_num = t.top_tracenodes.length)
    (hlimit : (t.display.length : Int) ≤ t.limit + 1) :
    ∃ b rows, update_tracewin t = .ok { t with blobs := b, rows := rows } ∧
      b.expended = t.blobs.expended ∧
      rows.map Row.shown = number_lines t.line_highlight 0 t.display := by
  have hn : t.top_tracenodes.length = 0 + t.tracenode_num.toNat := by
    rw [hnum]; simp
  refine ⟨(for_break (fun (root : Root) st => tui_print_tracenode t.line_highlight t.limit
      root.tracenode.depth root.tracenode 0 st) t.top_tracenodes
      { blobs := t.blobs, current := 0, rows := [] }).2.blobs,
    (for_break (fun (root : Root) st => tui_print_tracenode t.line_highlight t.limit
      root.tracenode.depth root.tracenode 0 st) t.top_tracenodes
      { blobs := t.blobs, current := 0, rows := [] }).2.rows, ?_, ?_⟩
  · unfold update_tracewin
    rw [for_top_in_bounds _ _ _ _ _ hn]
    rfl
  · have hs := for_break_print t.line_highlight t.limit t.blobs.expended
      (fun root : Root => display_lines t.blobs.expended root.tracenode.depth root.tracenode)
      (fun root st => tui_print_tracenode t.line_highlight t.limit root.tracenode.depth
        root.tracenode 0 st)
      (fun x st hs => by
        have := tui_print_tracenode_spec t.line_highlight t.limit x.tracenode.depth
          x.tracenode 0 st
        rwa [hs] at this)
      t.top_tracenodes { blobs := t.blobs, current := 0, rows := [] } rfl
      (by simpa [Tui.display] using hlimit)
    exact ⟨hs.2.2.1, by simpa [Tui.display] using hs.2.2.2⟩

/-! ### The fuel of the traversals: the depth of a node is enough -/

theorem mem_collect_tracenodes_sorted (children : List Tracenode) (top_only : Bool)
    (x : Tracenode) (hx : x ∈ collect_tracenodes_sorted children top_only) : x ∈ children := by
  unfold collect_tracenodes_sorted at hx
  rw [(List.perm_insertionSort _ _).mem_iff] at hx
  split at hx
  · exact List.mem_of_mem_filter hx
  · exact hx

theorem depth_le_depth_list (cs : List Tracenode) (x : Tracenode) (hx : x ∈ cs) :
    x.depth ≤ depth_list cs := by
  induction cs with
  | nil => cases hx
  | cons c cs ih =>
    simp only [depth_list]
    rcases List.mem_cons.1 hx with rfl | h
    · exact le_max_left _ _
    · exact le_trans (ih h) (le_max_right _ _)

theorem for_break_congr {α σ : Type} (f g : α → σ → Int × σ) (xs : List α)
    (hfg : ∀ x ∈ xs, ∀ st, f x st = g x st) (st : σ) :
    for_break f xs st = for_break g xs st := by
  induction xs generalizing st with
  | nil => rfl
  | cons x xs ih =>
    simp only [for_break]
    rw [hfg x (List.mem_cons_self _ _) st]
    split
    · rfl
    · exact ih (fun y hy => hfg y (List.mem_cons_of_mem _ hy)) _

theorem flatMap_congr_mem {α : Type} (f g : α → List Nat) (xs : List α)
    (hfg : ∀ x ∈ xs, f x = g x) : xs.flatMap f = xs.flatMap g := by
  induction xs with
  | nil => rfl
  | cons x xs ih =>
    rw [List.flatMap_cons, List.flatMap_cons, hfg x (List.mem_cons_self _ _),
      ih (fun y hy => hfg y (List.mem_cons_of_mem _ hy))]

/-- The function `try_extend_tracenode` gives the same result with any fuel
that is at least the depth of the node: the recursion never runs out of
fuel. -/
theorem try_extend_tracenode_fuel (h : Int) (n m : Nat) (node : Tracenode) (st : Ext)
    (hn : node.depth ≤ n) (hm : node.depth ≤ m) :
    try_extend_tracenode h n node st = try_extend_tracenode h m node st := by
  induction n generalizing m node st with
  | zero => obtain ⟨k, r, cs⟩ := node; simp [Tracenode.depth] at hn
  | succ n ih =>
    obtain ⟨k, r, cs⟩ := node
    cases m with
    | zero => simp [Tracenode.depth] at hm
    | succ m =>
      simp only [Tracenode.depth, Nat.add_le_add_iff_right] at hn hm
      cases r with
      | none => rfl
      | some r =>
        simp only [try_extend_tracenode]
        rw [for_break_congr (try_extend_tracenode h n) (try_extend_tracenode h m)]
        intro x hx s
        have hd := depth_le_depth_list cs x (mem_collect_tracenodes_sorted cs true x hx)
        exact ih m x s (by omega) (by omega)

/-- The function `tui_print_tracenode` gives the same result with any fuel that
is at least the depth of the node. -/
theorem tui_print_tracenode_fuel (lh limit : Int) (n m : Nat) (node : Tracenode)
    (indent : Nat) (st : Disp) (hn : node.depth ≤ n) (hm : node.depth ≤ m) :
    tui_print_tracenode lh limit n node indent st =
      tui_print_tracenode lh limit m node indent st := by
  induction n generalizing m node indent st with
  | zero => obtain ⟨k, r, cs⟩ := node; simp [Tracenode.depth] at hn
  | succ n ih =>
    obtain ⟨k, r, cs⟩ := node
    cases m with
    | zero => simp [Tracenode.depth] at hm
    | succ m =>
      simp only [Tracenode.depth, Nat.add_le_add_iff_right] at hn hm
      cases r with
      | none => rfl
      | some r =>
        simp only [tui_print_tracenode]
        rw [for_break_congr (fun x => tui_print_tracenode lh limit n x (indent + 1))
          (fun x => tui_print_tracenode lh limit m x (indent + 1))]
        intro x hx s
        have hd := depth_le_depth_list cs x (mem_collect_tracenodes_sorted cs true x hx)
        exact ih m x (indent + 1) s (by omega) (by omega)

/-- The function `display_lines` gives the same lines with any fuel that is at
least the depth of the node. -/
theorem display_lines_fuel (e : Nat → Bool) (n m : Nat) (node : Tracenode)
    (hn : node.depth ≤ n) (hm : node.depth ≤ m) :
    display_lines e n node = display_lines e m node := by
  induction n generalizing m node with
  | zero => obtain ⟨k, r, cs⟩ := node; simp [Tracenode.depth] at hn
  | succ n ih =>
    obtain ⟨k, r, cs⟩ := node
    cases m with
    | zero => simp [Tracenode.depth] at hm
    | succ m =>
      simp only [Tracenode.depth, Nat.add_le_add_iff_right] at hn hm
      cases r with
      | none => rfl
      | some r =>
        simp only [display_lines]
        rw [flatMap_congr_mem (display_lines e n) (display_lines e m)]
        intro x hx
        have hd := depth_le_depth_list cs x (mem_collect_tracenodes_sorted cs true x hx)
        exact ih m x (by omega) (by omega)

/-! ### Each record is shown once when each node has a record of its own -/

theorem records_list_eq_flatMap (cs : List Tracenode) :
    records_list cs = cs.flatMap Tracenode.records := by
  induction cs with
  | nil => rfl
  | cons c cs ih => rw [records_list, List.flatMap_cons, ih]

theorem subperm_flatMap {α : Type} (f g : α → List Nat) (xs : List α)
    (hfg : ∀ x ∈ xs, (f x).Subperm (g x)) : (xs.flatMap f).Subperm (xs.flatMap g) := by
  induction xs with
  | nil => exact List.Subperm.refl _
  | cons x xs ih =>
    rw [List.flatMap_cons, List.flatMap_cons]
    exact ((List.subperm_append_left (f x)).2
      (ih (fun y hy => hfg y (List.mem_cons_of_mem _ hy)))).trans
      ((List.subperm_append_right (xs.flatMap g)).2 (hfg x (List.mem_cons_self _ _)))

theorem sublist_flatMap {α : Type} (g : α → List Nat) (xs ys : List α)
    (h : List.Sublist xs ys) : List.Sublist (xs.flatMap g) (ys.flatMap g) := by
  induction h with
  | slnil => exact List.Sublist.refl _
  | cons a _ ih =>
    rw [List.flatMap_cons]
    exact ih.trans (List.sublist_append_right _ _)
  | cons₂ a _ ih =>
    rw [List.flatMap_cons, List.flatMap_cons]
    exact List.Sublist.append (List.Sublist.refl _) ih

theorem display_lines_subperm (e : Nat → Bool) (fuel : Nat) (node : Tracenode) :
    (display_lines e fuel node).Subperm node.records := by
  induction fuel generalizing node with
  | zero => exact (List.nil_sublist _).subperm
  | succ n ih =>
    obtain ⟨key, record, children⟩ := node
    cases record with
    | none => exact (List.nil_sublist _).subperm
    | some r =>
      simp only [display_lines, Tracenode.records, List.singleton_append]
      rw [List.subperm_cons]
      split
      · rw [records_list_eq_flatMap]
        have h1 : ((collect_tracenodes_sorted children true).flatMap (display_lines e n)).Subperm
            ((collect_tracenodes_sorted children true).flatMap Tracenode.records) :=
          subperm_flatMap _ _ _ (fun x _ => ih x)
        have h2 : ((collect_tracenodes_sorted children true).flatMap Tracenode.records).Subperm
            ((children.filter (fun n => decide (n.pages_alloc ≠ 0))).flatMap
              Tracenode.records) := by
          apply List.Perm.subperm
          apply List.Perm.flatMap_right
          simp only [collect_tracenodes_sorted, if_true]
          exact List.perm_insertionSort _ _
        have h3 := (sublist_flatMap Tracenode.records _ _
            (List.filter_sublist (p := fun n : Tracenode => decide (n.pages_alloc ≠ 0))
              children)).subperm
        exact h1.trans (h2.trans h3)
      · exact (List.nil_sublist _).subperm

/-- When the records of the forest have pairwise distinct addresses, no record
is shown on two lines. -/
theorem display_nodup (t : Tui) (h : t.records.Nodup) : t.display.Nodup := by
  have hs : t.display.Subperm t.records :=
    subperm_flatMap _ _ _ (fun root _ => display_lines_subperm _ _ _)
  obtain ⟨l, hl, hsub⟩ := hs
  exact hl.nodup_iff.1 (h.sublist hsub)

theorem line_at_eq_none (lines : List Nat) (h : Int)
    (hh : h < 0 ∨ (lines.length : Int) ≤ h) : line_at lines h = none := by
  unfold line_at
  rcases hh with hh | hh
  · simp [not_le.2 hh]
  · have h0 : 0 ≤ h := le_trans (Int.natCast_nonneg _) hh
    simp only [h0, if_true]
    exact List.getElem?_eq_none (by omega)

/-- C7: with the graph unchanged since the redraw (`top_tracenodes` holds
`tracenode_num` roots), `expend_line` returns and flips the `expended` flag of
exactly the record that the display traversal of `tui_print_tracenode`
without its line limit (`display`) puts on line `line_highlight`, leaving every
other flag as it was; when that traversal has `line_highlight` lines or fewer
no flag changes; when each node has a record of its own (the addresses of
the records of the forest are pairwise distinct) a second `expend_line`
restores every flag. The traversal is the one `update_tracewin` prints: when
the line limit is not reached it prints the lines of `display`, numbered from
0, the line `line_highlight` highlighted. -/
theorem C7_expend_line_flips_displayed_line (t : Tui) (line : Int)
    (hnum : t.tracenode_num = t.top_tracenodes.length) :
    ((t.display.length : Int) ≤ t.limit + 1 →
      ∃ b rows, update_tracewin t = .ok { t with blobs := b, rows := rows } ∧
        b.expended = t.blobs.expended ∧
        rows.map Row.shown = number_lines t.line_highlight 0 t.display) ∧
    ∃ b, expend_line line t = .ok { t with blobs := b } ∧
      (∀ a, line_at t.display t.line_highlight = some a →
        b.expended a = !t.blobs.expended a ∧
        ∀ x, x ≠ a → b.expended x = t.blobs.expended x) ∧
      ((t.line_highlight < 0 ∨ (t.display.length : Int) ≤ t.line_highlight) →
        b.expended = t.blobs.expended) ∧
      (t.records.Nodup →
        ∃ b2, expend_line line { t with blobs := b } = .ok { t with blobs := b2 } ∧
          b2.expended = t.blobs.expended) := by
  refine ⟨update_tracewin_spec t hnum, ?_⟩
  obtain ⟨b, hb, hspec⟩ := expend_line_spec t line hnum
  obtain ⟨b2, hb2, hspec2⟩ := expend_line_spec { t with blobs := b } line hnum
  refine ⟨b, hb, ?_, ?_, fun hrec => ⟨b2, hb2, ?_⟩⟩
  · intro a ha
    rw [ha] at hspec
    simp only at hspec
    rw [hspec]
    exact ⟨by simp, fun x hx => Function.update_noteq hx _ _⟩
  · intro hh
    rw [line_at_eq_none _ _ hh] at hspec
    exact hspec
  · have hnodup := display_nodup t hrec
    cases ha : line_at t.display t.line_highlight with
    | some a =>
      rw [ha] at hspec
      simp only at hspec hspec2
      have hst := display_line_stable t { t with blobs := b } rfl t.line_highlight a ha
        hnodup hspec
      rw [hst] at hspec2
      simp only at hspec2
      rw [hspec2, hspec]
      funext x
      by_cases hx : x = a
      · subst hx; simp
      · simp [Function.update_noteq hx]
    | none =>
      rw [ha] at hspec
      simp only at hspec hspec2
      have hd : ({ t with blobs := b } : Tui).display = t.display :=
        display_congr t _ rfl hspec
      rw [hd, ha] at hspec2
      simp only at hspec2
      rw [hspec2, hspec]

/-- C7 on the process view of one task: the display has the lines 1, 3, 2 and
line 1 is highlighted; `expend_line` flips the record at address 3 only, and a
second call restores the flags. -/
theorem C7_expend_line_flips_displayed_line_witness :
    tui_init.tracenode_num = tui_init.top_tracenodes.length ∧
    (tui_init.display.length : Int) ≤ tui_init.limit + 1 ∧
    tui_init.records.Nodup ∧
    line_at tui_init.display tui_init.line_highlight = some 3 ∧
    (∃ b rows, update_tracewin tui_init = .ok { tui_init with blobs := b, rows := rows } ∧
      b.expended = tui_init.blobs.expended ∧
      rows.map Row.shown = [(0, 1, false), (1, 3, true), (2, 2, false)]) ∧
    ∃ b, expend_line 4 tui_init = .ok { tui_init with blobs := b } ∧
      (b.expended 3 = !tui_init.blobs.expended 3 ∧
        ∀ x, x ≠ 3 → b.expended x = tui_init.blobs.expended x) ∧
      ∃ b2, expend_line 4 { tui_init with blobs := b } = .ok { tui_init with blobs := b2 } ∧
        b2.expended = tui_init.blobs.expended := by
  have hw := C7_expend_line_flips_displayed_line tui_init 4 (by decide)
  obtain ⟨b, hb, h1, _, h3⟩ := hw.2
  exact ⟨by decide, by decide, by decide, by decide, hw.1 (by decide),
    b, hb, h1 3 (by decide), h3 (by decide)⟩

/-- The key m or M: `ui_type` goes from the process view to the module view and
back, stays below `UI_TYPE_MAX`, and nothing else changes in the switch. -/
theorem tui_loop_switch_m (t : Tui) (ch : Int) (hch : ch = 'm'.toNat ∨ ch = 'M'.toNat)
    (ht : t.ui_type < UI_TYPE_MAX) :
    ∃ u, tui_loop_switch ch t = .ok { t with ui_type := u } ∧ u < UI_TYPE_MAX ∧ u ≠ t.ui_type ∧
      (t.ui_type = UI_TYPE_TASK → u = UI_TYPE_MODULE) ∧
      (t.ui_type = UI_TYPE_MODULE → u = UI_TYPE_TASK) ∧
      tui_loop_switch ch { t with ui_type := u } = .ok t := by
  have hq : ¬ (ch = 'q'.toNat ∨ ch = 'Q'.toNat) := by
    rcases hch with h | h <;> rw [h] <;> decide
  have hsw : ∀ t : Tui, tui_loop_switch ch t =
      .ok { t with ui_type := if t.ui_type + 1 ≥ UI_TYPE_MAX then 0 else t.ui_type + 1 } := by
    intro t
    unfold tui_loop_switch
    rw [if_neg hq, if_pos hch]
  obtain ⟨ui, top, num, lh, b, lim, en, li, rows⟩ := t
  simp only [UI_TYPE_MAX] at ht
  have h01 : ui = 0 ∨ ui = 1 := by omega
  rcases h01 with rfl | rfl
  · refine ⟨1, hsw _, ?_, ?_, ?_, ?_, hsw _⟩ <;>
      simp [UI_TYPE_MAX, UI_TYPE_TASK, UI_TYPE_MODULE]
  · refine ⟨0, hsw _, ?_, ?_, ?_, ?_, hsw _⟩ <;>
      simp [UI_TYPE_MAX, UI_TYPE_TASK, UI_TYPE_MODULE]

theorem update_top_tracenodes_blobs_ok (top : List Root) (n i : Nat) (b : Blobs)
    (hlen : top.length = i + n) (hrec : ∀ r ∈ top, r.tracenode.record ≠ none) :
    ∃ b2, update_top_tracenodes_blobs top n i b = .ok b2 ∧ b2.expended = b.expended := by
  induction n generalizing i b with
  | zero => exact ⟨b, rfl, rfl⟩
  | succ n ih =>
    have hi : i < top.length := by omega
    have hr := hrec top[i] (List.getElem_mem hi)
    cases hrc : top[i].tracenode.record with
    | none => exact absurd hrc hr
    | some r =>
      obtain ⟨b2, h1, h2⟩ := ih (i + 1) (b.calloc_if_null r.addr) (by omega)
      refine ⟨b2, ?_, h2.trans (expended_calloc_if_null _ _)⟩
      simp only [update_top_tracenodes_blobs, List.getElem?_eq_getElem hi, hrc]
      exact h1

theorem update_top_tracenodes_blobs_past_end (top : List Root) (m n i : Nat) (b : Blobs)
    (hlen : top.length = i + m) (hmn : m < n)
    (hrec : ∀ r ∈ top, r.tracenode.record ≠ none) :
    update_top_tracenodes_blobs top n i b = .error (.out_of_bounds (i + m)) := by
  induction m generalizing n i b with
  | zero =>
    obtain ⟨k, rfl⟩ : ∃ k, n = k + 1 := ⟨n - 1, by omega⟩
    have hi : top[i]? = none := List.getElem?_eq_none (by omega)
    simp [update_top_tracenodes_blobs, hi]
  | succ m ih =>
    obtain ⟨k, rfl⟩ : ∃ k, n = k + 1 := ⟨n - 1, by omega⟩
    have hi : i < top.length := by omega
    have hr := hrec top[i] (List.getElem_mem hi)
    cases hrc : top[i].tracenode.record with
    | none => exact absurd hrc hr
    | some r =>
      simp only [update_top_tracenodes_blobs, List.getElem?_eq_getElem hi, hrc]
      rw [ih k (i + 1) _ (by omega) (by omega)]
      congr 2
      omega

theorem record_of_pages_alloc (n : Tracenode) (h : n.pages_alloc ≠ 0) : n.record ≠ none := by
  intro hn
  simp [Tracenode.pages_alloc, hn] at h

/-- In the process view the count that `update_top_tracenodes` stores is the
number of entries the query returned, every entry is a Task root with a
record, and `update_top_tracenodes` returns. -/
theorem update_top_tracenodes_task_view (ix : Index) (t : Tui)
    (ht : t.ui_type = UI_TYPE_TASK) :
    (update_top_tracenodes_query ix t).tracenode_num =
      (update_top_tracenodes_query ix t).top_tracenodes.length ∧
    (∀ r ∈ (update_top_tracenodes_query ix t).top_tracenodes,
      r.ui_type = UI_TYPE_TASK ∧ r.tracenode.record ≠ none) ∧
    ∃ b, update_top_tracenodes ix t =
      .ok { update_top_tracenodes_query ix t with blobs := b } ∧
      b.expended = t.blobs.expended := by
  have hq : update_top_tracenodes_query ix t =
      { t with top_tracenodes := (collect_tasks_sorted true ix.tasks).1.map Root.task,
               tracenode_num := (collect_tasks_sorted true ix.tasks).2 } := by
    simp [update_top_tracenodes_query, ht]
  have hmem : ∀ r ∈ (update_top_tracenodes_query ix t).top_tracenodes,
      r.ui_type = UI_TYPE_TASK ∧ r.tracenode.record ≠ none := by
    intro r hr
    rw [hq] at hr
    obtain ⟨task, htask, rfl⟩ := List.mem_map.1 hr
    refine ⟨rfl, record_of_pages_alloc _ ?_⟩
    simp only [collect_tasks_sorted, if_true] at htask
    rw [(List.perm_insertionSort _ _).mem_iff] at htask
    simpa using (List.mem_filter.1 htask).2
  have hnum : (update_top_tracenodes_query ix t).tracenode_num =
      (update_top_tracenodes_query ix t).top_tracenodes.length := by
    rw [hq]
    simp [collect_tasks_sorted]
  refine ⟨hnum, hmem, ?_⟩
  obtain ⟨b, h1, h2⟩ := update_top_tracenodes_blobs_ok
    (update_top_tracenodes_query ix t).top_tracenodes
    (update_top_tracenodes_query ix t).tracenode_num.toNat 0
    (update_top_tracenodes_query ix t).blobs (by rw [hnum]; simp) (fun r hr => (hmem r hr).2)
  refine ⟨b, ?_, ?_⟩
  · simp only [update_top_tracenodes, h1]
  · rw [h2, hq]

/-- In the module view every entry the query returned is a Module root with a
record, but the count stored is `module_map.size`: as soon as one module of the
index has no pages, `update_top_tracenodes` reads the entry just past the end
of the array. -/
theorem update_top_tracenodes_module_view (ix : Index) (t : Tui)
    (ht : t.ui_type ≠ UI_TYPE_TASK)
    (hz : ∃ m ∈ ix.modules, m.tracenode.pages_alloc = 0) :
    (update_top_tracenodes_query ix t).tracenode_num = ix.modules.length ∧
    (update_top_tracenodes_query ix t).top_tracenodes.length < ix.modules.length ∧
    (∀ r ∈ (update_top_tracenodes_query ix t).top_tracenodes,
      r.ui_type = UI_TYPE_MODULE ∧ r.tracenode.record ≠ none) ∧
    update_top_tracenodes ix t =
      .error (.out_of_bounds (update_top_tracenodes_query ix t).top_tracenodes.length) := by
  have hq : update_top_tracenodes_query ix t =
      { t with top_tracenodes := (collect_modules_sorted true ix.modules).map Root.module,
               tracenode_num := ix.module_map_size } := by
    simp [update_top_tracenodes_query, ht]
  have hmem : ∀ r ∈ (update_top_tracenodes_query ix t).top_tracenodes,
      r.ui_type = UI_TYPE_MODULE ∧ r.tracenode.record ≠ none := by
    intro r hr
    rw [hq] at hr
    obtain ⟨m, hm, rfl⟩ := List.mem_map.1 hr
    refine ⟨rfl, record_of_pages_alloc _ ?_⟩
    simp only [collect_modules_sorted, if_true] at hm
    rw [(List.perm_insertionSort _ _).mem_iff] at hm
    simpa using (List.mem_filter.1 hm).2
  have hlen : (update_top_tracenodes_query ix t).top_tracenodes.length < ix.modules.length := by
    rw [hq]
    simp only [List.length_map, collect_modules_sorted, if_true, List.length_insertionSort]
    apply List.length_filter_lt_length_iff_exists.2
    obtain ⟨m, hm, hm0⟩ := hz
    exact ⟨m, hm, by simp [hm0]⟩
  have hnum : (update_top_tracenodes_query ix t).tracenode_num = ix.modules.length := by
    rw [hq]; rfl
  refine ⟨hnum, hlen, hmem, ?_⟩
  have h1 := update_top_tracenodes_blobs_past_end
    (update_top_tracenodes_query ix t).top_tracenodes
    (update_top_tracenodes_query ix t).top_tracenodes.length
    (update_top_tracenodes_query ix t).tracenode_num.toNat 0
    (update_top_tracenodes_query ix t).blobs (by simp) (by rw [hnum]; simpa using hlen)
    (fun r hr => (hmem r hr).2)
  simp only [update_top_tracenodes, h1, Nat.zero_add]

/-- C5, at the failing input: in the process view, with a module in the index
whose pages were all freed, the key m switches `ui_type` to the module view,
then `update_top_tracenodes` takes the empty result of
`collect_modules_sorted(1)` with `tracenode_num = module_map.size = 1` and
reads `top_tracenodes[0]` past its end: the entry at index 0 is no Module
root. -/
theorem C5_switch_to_modules_reads_past_end :
    (∃ t, tui_loop_switch 'm'.toNat tui_init = .ok t ∧ t.ui_type = UI_TYPE_MODULE ∧
      (update_top_tracenodes_query index_freed_module t).tracenode_num = 1 ∧
      (update_top_tracenodes_query index_freed_module t).top_tracenodes[0]?.isNone = true) ∧
    tui_loop_key 'm'.toNat index_freed_module tui_init = .error (.out_of_bounds 0) ∧
    tui_loop index_freed_module true 'm'.toNat false 0 tui_init =
      .error (.out_of_bounds 0) :=
  ⟨⟨_, rfl, rfl, rfl, rfl⟩, rfl, rfl⟩

/-- C6, at the failing input: in the module view, with one module in
`module_map` whose `pages_alloc` is 0, `collect_modules_sorted(1)` returns no
entry, `tracenode_num` is set to `module_map.size = 1`, and the loop of
`update_top_tracenodes` reads `top_tracenodes[0]` past the end. -/
theorem C6_module_count_is_map_size :
    (collect_modules_sorted true index_freed_module.modules).length = 0 ∧
    (update_top_tracenodes_query index_freed_module
      { tui_init with ui_type := UI_TYPE_MODULE }).tracenode_num = 1 ∧
    (update_top_tracenodes_query index_freed_module
      { tui_init with ui_type := UI_TYPE_MODULE }).top_tracenodes.length = 0 ∧
    update_top_tracenodes index_freed_module { tui_init with ui_type := UI_TYPE_MODULE } =
      .error (.out_of_bounds 0) :=
  ⟨rfl, rfl, rfl, rfl⟩

end Memstrack
